import Mathlib

/-!
Verification of the lineup deduplication core of src/main.py.

The core consists of `calculate_distance`, `calculate_angle_difference`
(with its inner `normalize_angle` loop), `is_similar_lineup` and
`merge_lineups`.  Records are open dictionaries; only the `position` and
`viewangles` fields matter, each holding a JSON array whose entries may or
may not be numeric.  Python arithmetic on a non-numeric entry raises a
TypeError and indexing past the end of a list raises an IndexError; both
are modelled by the `DomainError` error monad.  Numbers are modelled as
rationals, with the square root taken in the reals.
-/

/-- An entry of a `position` or `viewangles` array: either a number or a
non-numeric JSON value (string, null, object, ...), tagged so that distinct
non-numeric values stay distinct. -/
inductive Val where
  | num (q : ℚ)
  | nonnum (tag : ℕ)
deriving DecidableEq, Repr

/-- An error escaping the arithmetic core: Python's TypeError (non-numeric
operand of `-`) or IndexError (indexing a too-short list).  The spec calls
both a `DomainError`. -/
inductive DomainError where
  | typeMismatch
  | indexOutOfRange
deriving DecidableEq, Repr

/-- A lineup record.  `position` and `viewangles` are `none` when the
dictionary lacks the field; `payload` stands for all the other, opaque
fields of the record. -/
structure Lineup where
  position : Option (List Val)
  viewangles : Option (List Val)
  payload : ℕ
deriving DecidableEq, Repr

/-- Python subtraction `a - b` on array entries: defined on two numbers,
a TypeError otherwise. -/
def vsub : Val → Val → Except DomainError ℚ
  | Val.num a, Val.num b => Except.ok (a - b)
  | _, _ => Except.error DomainError.typeMismatch

/-- Python indexing `l[i]`: an IndexError when `i` is out of range. -/
def getIdx (l : List Val) (i : ℕ) : Except DomainError Val :=
  match l.get? i with
  | some v => Except.ok v
  | none => Except.error DomainError.indexOutOfRange

/-- The generator `sum((a - b) ** 2 for a, b in zip(pos1, pos2))` inside
`calculate_distance`, evaluated left to right; the first TypeError
propagates. -/
def sumSqDiff : List (Val × Val) → Except DomainError ℚ
  | [] => Except.ok 0
  | (a, b) :: rest => do
    let d ← vsub a b
    let s ← sumSqDiff rest
    Except.ok (d ^ 2 + s)

/-- `calculate_distance(pos1, pos2)` from src/main.py: the 3D Euclidean
distance `math.sqrt(sum((a - b) ** 2 for a, b in zip(pos1, pos2)))`.
`zip` silently truncates to the shorter list. -/
noncomputable def calculate_distance (pos1 pos2 : List Val) :
    Except DomainError ℝ := do
  let s ← sumSqDiff (List.zip pos1 pos2)
  Except.ok (Real.sqrt (s : ℝ))

/-- First loop of `normalize_angle` in src/main.py:
`while angle > 180: angle -= 360`. -/
def reduceDown (a : ℚ) : ℚ :=
  if 180 < a then reduceDown (a - 360) else a
termination_by (⌈a⌉ - 180).toNat
decreasing_by
  have h1 : (180 : ℤ) < ⌈a⌉ := by
    rw [Int.lt_ceil]
    exact_mod_cast (by assumption : (180 : ℚ) < a)
  have h2 : ⌈a - 360⌉ = ⌈a⌉ - 360 := by
    rw [show (360 : ℚ) = ((360 : ℤ) : ℚ) by norm_num, Int.ceil_sub_int]
  rw [h2]
  exact (Int.toNat_lt_toNat (by omega)).mpr (by omega)

/-- Second loop of `normalize_angle` in src/main.py:
`while angle < -180: angle += 360`. -/
def reduceUp (a : ℚ) : ℚ :=
  if a < -180 then reduceUp (a + 360) else a
termination_by (-180 - ⌊a⌋).toNat
decreasing_by
  have h1 : ⌊a⌋ < -180 := by
    rw [Int.floor_lt]
    exact_mod_cast (by assumption : a < (-180 : ℚ))
  have h2 : ⌊a + 360⌋ = ⌊a⌋ + 360 := by
    rw [show (360 : ℚ) = ((360 : ℤ) : ℚ) by norm_num, Int.floor_add_int]
  rw [h2]
  exact (Int.toNat_lt_toNat (by omega)).mpr (by omega)

/-- `normalize_angle` from src/main.py: the first loop brings the angle
down while it exceeds 180, then the second loop brings it up while it is
below -180. -/
def normalize_angle (angle : ℚ) : ℚ := reduceUp (reduceDown angle)

/-- `calculate_angle_difference(angle1, angle2)` from src/main.py:
per-axis normalized absolute differences, a second wraparound fold on the
yaw axis, combined by `math.sqrt(pitch_diff ** 2 + yaw_diff ** 2)`.
Indexing and subtraction errors propagate in Python evaluation order. -/
noncomputable def calculate_angle_difference (angle1 angle2 : List Val) :
    Except DomainError ℝ := do
  let a10 ← getIdx angle1 0
  let a20 ← getIdx angle2 0
  let d0 ← vsub a10 a20
  let pitch_diff : ℚ := |normalize_angle d0|
  let a11 ← getIdx angle1 1
  let a21 ← getIdx angle2 1
  let d1 ← vsub a11 a21
  let yaw0 : ℚ := |normalize_angle d1|
  let yaw_diff : ℚ := if 180 < yaw0 then 360 - yaw0 else yaw0
  Except.ok (Real.sqrt ((pitch_diff : ℝ) ^ 2 + (yaw_diff : ℝ) ^ 2))

/-- `is_similar_lineup(max_pos, max_angle, lineup1, lineup2)` from
src/main.py: `False` when either record lacks `position` or `viewangles`;
otherwise position distance and angle difference are computed (errors
propagate) and both are compared inclusively against the thresholds. -/
noncomputable def is_similar_lineup (max_pos max_angle : ℚ)
    (lineup1 lineup2 : Lineup) : Except DomainError Bool :=
  match lineup1.position, lineup2.position with
  | some pos1, some pos2 =>
    match lineup1.viewangles, lineup2.viewangles with
    | some ang1, some ang2 => do
      let pos_distance ← calculate_distance pos1 pos2
      let angle_diff ← calculate_angle_difference ang1 ang2
      Except.ok (decide (pos_distance ≤ (max_pos : ℝ) ∧
        angle_diff ≤ (max_angle : ℝ)))
    | _, _ => Except.ok false
  | _, _ => Except.ok false

/-- Inner loop of `merge_lineups`: scan the accumulating result in order,
stopping at the first element similar to the candidate. -/
noncomputable def checkDuplicate (max_pos max_angle : ℚ) (c : Lineup) :
    List Lineup → Except DomainError Bool
  | [] => Except.ok false
  | x :: xs => do
    let b ← is_similar_lineup max_pos max_angle c x
    if b then Except.ok true else checkDuplicate max_pos max_angle c xs

/-- Outer loop of `merge_lineups`: fold the candidates over the
accumulating result, appending each candidate that found no similar
element. -/
noncomputable def mergeLoop (max_pos max_angle : ℚ) :
    List Lineup → List Lineup → Except DomainError (List Lineup)
  | result, [] => Except.ok result
  | result, c :: cs => do
    let b ← checkDuplicate max_pos max_angle c result
    if b then mergeLoop max_pos max_angle result cs
    else mergeLoop max_pos max_angle (result ++ [c]) cs

/-- `merge_lineups(max_pos, max_angle, existing_lineups, new_lineups)`
from src/main.py.  `result = existing_lineups.copy()` is a value copy, so
the loop starts from `existing_lineups` itself in the value semantics. -/
noncomputable def merge_lineups (max_pos max_angle : ℚ)
    (existing_lineups new_lineups : List Lineup) :
    Except DomainError (List Lineup) :=
  mergeLoop max_pos max_angle existing_lineups new_lineups

/-- Modelled from the spec: the single centered modulo-360 reduction into
the interval (-180, 180] that section 4.1 of the spec says the
normalization loop is equivalent to.  Used only to compare against
`normalize_angle`. -/
def centeredMod (d : ℚ) : ℚ := d - 360 * ⌈(d - 180) / 360⌉

/-- All-numeric array from a list of rationals. -/
def numList (l : List ℚ) : List Val := l.map Val.num

/-- A record with both required fields, all-numeric. -/
def mkLineup (pos ang : List ℚ) (payl : ℕ) : Lineup :=
  ⟨some (numList pos), some (numList ang), payl⟩

/-- Modelled from the spec, section 4.1 step 2: Euclidean distance between
two 3-component positions. -/
noncomputable def specPositionDistance (x1 y1 z1 x2 y2 z2 : ℚ) : ℝ :=
  Real.sqrt (((x1 - x2 : ℚ) : ℝ) ^ 2 + ((y1 - y2 : ℚ) : ℝ) ^ 2 +
    ((z1 - z2 : ℚ) : ℝ) ^ 2)

/-- Modelled from the spec, section 4.1 step 3: per-axis centered
normalization, absolute value, the second wraparound fold on yaw only, and
the Euclidean combination of the two axes. -/
noncomputable def specAngularDistance (pa ya pb yb : ℚ) : ℝ :=
  Real.sqrt (((|centeredMod (pa - pb)| : ℚ) : ℝ) ^ 2 +
    (((if 180 < |centeredMod (ya - yb)| then 360 - |centeredMod (ya - yb)|
      else |centeredMod (ya - yb)|) : ℚ) : ℝ) ^ 2)

/-- First record of the spec's concrete merge scenario. -/
def lineupA : Lineup := mkLineup [0, 0, 0] [0, 0] 0

/-- Second record of the spec's concrete merge scenario. -/
def lineupB : Lineup := mkLineup [1, 0, 0] [0, 0] 1

/-- A record whose required fields are present, all-numeric, with at least
two orientation components: the shape on which the similarity computation
cannot raise. -/
def WellFormed (l : Lineup) : Prop :=
  ∃ ps as2, l.position = some (numList ps) ∧
    l.viewangles = some (numList as2) ∧ 2 ≤ as2.length

/-- Record with no `position` and no `viewangles` field. -/
def noFieldRecord : Lineup := ⟨none, none, 0⟩

theorem reduceDown_of_le {a : ℚ} (h : a ≤ 180) : reduceDown a = a := by
  rw [reduceDown]
  simp [not_lt.mpr h]

theorem reduceDown_of_gt {a : ℚ} (h : 180 < a) :
    reduceDown a = reduceDown (a - 360) := by
  rw [reduceDown]
  simp [h]

theorem reduceUp_of_ge {a : ℚ} (h : -180 ≤ a) : reduceUp a = a := by
  rw [reduceUp]
  simp [not_lt.mpr h]

theorem reduceUp_of_lt {a : ℚ} (h : a < -180) :
    reduceUp a = reduceUp (a + 360) := by
  rw [reduceUp]
  simp [h]

theorem reduceDown_le (a : ℚ) : reduceDown a ≤ 180 := by
  induction a using reduceDown.induct with
  | case1 a h ih => rw [reduceDown_of_gt h]; exact ih
  | case2 a h => rw [reduceDown_of_le (not_lt.mp h)]; exact not_lt.mp h

theorem reduceDown_gt_neg {a : ℚ} (ha : -180 < a) : -180 < reduceDown a := by
  induction a using reduceDown.induct with
  | case1 a h ih =>
    rw [reduceDown_of_gt h]
    exact ih (by linarith)
  | case2 a h => rw [reduceDown_of_le (not_lt.mp h)]; exact ha

theorem reduceDown_mod (a : ℚ) : ∃ k : ℤ, reduceDown a = a - 360 * k := by
  induction a using reduceDown.induct with
  | case1 a h ih =>
    obtain ⟨k, hk⟩ := ih
    refine ⟨k + 1, ?_⟩
    rw [reduceDown_of_gt h, hk]
    push_cast
    ring
  | case2 a h =>
    refine ⟨0, ?_⟩
    rw [reduceDown_of_le (not_lt.mp h)]
    norm_num

theorem reduceUp_ge (a : ℚ) : -180 ≤ reduceUp a := by
  induction a using reduceUp.induct with
  | case1 a h ih => rw [reduceUp_of_lt h]; exact ih
  | case2 a h => rw [reduceUp_of_ge (not_lt.mp h)]; exact not_lt.mp h

theorem reduceUp_lt {a : ℚ} (ha : a < 180) : reduceUp a < 180 := by
  induction a using reduceUp.induct with
  | case1 a h ih =>
    rw [reduceUp_of_lt h]
    exact ih (by linarith)
  | case2 a h => rw [reduceUp_of_ge (not_lt.mp h)]; exact ha

theorem reduceUp_le {a : ℚ} (ha : a ≤ 180) : reduceUp a ≤ 180 := by
  rcases lt_or_eq_of_le ha with h | h
  · exact le_of_lt (reduceUp_lt h)
  · rw [h, reduceUp_of_ge (by norm_num)]

theorem reduceUp_mod (a : ℚ) : ∃ k : ℤ, reduceUp a = a + 360 * k := by
  induction a using reduceUp.induct with
  | case1 a h ih =>
    obtain ⟨k, hk⟩ := ih
    refine ⟨k + 1, ?_⟩
    rw [reduceUp_of_lt h, hk]
    push_cast
    ring
  | case2 a h =>
    refine ⟨0, ?_⟩
    rw [reduceUp_of_ge (not_lt.mp h)]
    norm_num

theorem normalize_angle_ge (a : ℚ) : -180 ≤ normalize_angle a :=
  reduceUp_ge (reduceDown a)

theorem normalize_angle_le (a : ℚ) : normalize_angle a ≤ 180 :=
  reduceUp_le (reduceDown_le a)

theorem normalize_angle_mod (a : ℚ) :
    ∃ k : ℤ, normalize_angle a = a - 360 * k := by
  obtain ⟨k1, hk1⟩ := reduceDown_mod a
  obtain ⟨k2, hk2⟩ := reduceUp_mod (reduceDown a)
  refine ⟨k1 - k2, ?_⟩
  rw [normalize_angle, hk2, hk1]
  push_cast
  ring

theorem normalize_angle_gt_neg {a : ℚ} (ha : -180 < a) :
    -180 < normalize_angle a := by
  have h1 := reduceDown_gt_neg ha
  rw [normalize_angle, reduceUp_of_ge (le_of_lt h1)]
  exact h1

theorem centeredMod_gt (d : ℚ) : -180 < centeredMod d := by
  have h := Int.ceil_lt_add_one ((d - 180) / 360)
  rw [centeredMod]
  have h360 : (0:ℚ) < 360 := by norm_num
  nlinarith [h]

theorem centeredMod_le (d : ℚ) : centeredMod d ≤ 180 := by
  have h := Int.le_ceil ((d - 180) / 360)
  rw [centeredMod]
  nlinarith [h]

theorem centeredMod_mod (d : ℚ) : ∃ k : ℤ, centeredMod d = d - 360 * k :=
  ⟨⌈(d - 180) / 360⌉, rfl⟩

theorem normalize_angle_agree (d : ℚ) :
    normalize_angle d = centeredMod d ∨
      (normalize_angle d = -180 ∧ centeredMod d = 180 ∧ d ≤ -180) := by
  obtain ⟨k1, hk1⟩ := normalize_angle_mod d
  obtain ⟨k2, hk2⟩ := centeredMod_mod d
  have hx1 := normalize_angle_ge d
  have hx2 := normalize_angle_le d
  have hy1 := centeredMod_gt d
  have hy2 := centeredMod_le d
  have hdiff : normalize_angle d - centeredMod d = 360 * ((k2 : ℚ) - k1) := by
    rw [hk1, hk2]; ring
  have hk : k2 - k1 = 0 ∨ k2 - k1 = -1 := by
    have hb1 : (360 : ℚ) * ((k2 : ℚ) - k1) < 360 := by linarith
    have hb2 : (-360 : ℚ) ≤ 360 * ((k2 : ℚ) - k1) := by linarith
    have : ((k2 - k1 : ℤ) : ℚ) < 1 := by push_cast; linarith
    have h2 : (-1 : ℚ) ≤ ((k2 - k1 : ℤ) : ℚ) := by push_cast; linarith
    have l1 : (k2 - k1 : ℤ) < 1 := by exact_mod_cast this
    have l2 : (-1 : ℤ) ≤ k2 - k1 := by exact_mod_cast h2
    omega
  rcases hk with h | h
  · left
    have : ((k2 : ℚ) - k1) = 0 := by exact_mod_cast h
    linarith [hdiff, this]
  · right
    have hc : ((k2 : ℚ) - k1) = -1 := by exact_mod_cast h
    rw [hc] at hdiff
    have hx : normalize_angle d = centeredMod d - 360 := by linarith
    have h180 : centeredMod d = 180 := by linarith
    have hxv : normalize_angle d = -180 := by linarith
    refine ⟨hxv, h180, ?_⟩
    by_contra hd
    push_neg at hd
    exact absurd hxv (ne_of_gt (normalize_angle_gt_neg hd))

theorem abs_normalize_neg (d : ℚ) :
    |normalize_angle (-d)| = |normalize_angle d| := by
  obtain ⟨k1, hk1⟩ := normalize_angle_mod d
  obtain ⟨k2, hk2⟩ := normalize_angle_mod (-d)
  have hx1 := normalize_angle_ge d
  have hx2 := normalize_angle_le d
  have hy1 := normalize_angle_ge (-d)
  have hy2 := normalize_angle_le (-d)
  have hsum : normalize_angle d + normalize_angle (-d) = 360 * (-(k1 : ℚ) - k2) := by
    rw [hk1, hk2]; ring
  have hk : -k1 - k2 = 0 ∨ -k1 - k2 = 1 ∨ -k1 - k2 = -1 := by
    have h1 : ((-k1 - k2 : ℤ) : ℚ) ≤ 1 := by push_cast; linarith
    have h2 : (-1 : ℚ) ≤ ((-k1 - k2 : ℤ) : ℚ) := by push_cast; linarith
    have l1 : (-k1 - k2 : ℤ) ≤ 1 := by exact_mod_cast h1
    have l2 : (-1 : ℤ) ≤ -k1 - k2 := by exact_mod_cast h2
    omega
  rcases hk with h | h | h
  · have hc : (-(k1 : ℚ) - k2) = 0 := by exact_mod_cast h
    rw [hc, mul_zero] at hsum
    have : normalize_angle (-d) = -normalize_angle d := by linarith
    rw [this, abs_neg]
  · have hc : (-(k1 : ℚ) - k2) = 1 := by exact_mod_cast h
    rw [hc, mul_one] at hsum
    have e1 : normalize_angle d = 180 := by linarith
    have e2 : normalize_angle (-d) = 180 := by linarith
    rw [e1, e2]
  · have hc : (-(k1 : ℚ) - k2) = -1 := by exact_mod_cast h
    rw [hc] at hsum
    have e1 : normalize_angle d = -180 := by linarith
    have e2 : normalize_angle (-d) = -180 := by linarith
    rw [e1, e2]


/-- Bind of a success in the `DomainError` monad, as a rewrite. -/
@[simp] theorem okBind {α β : Type} (a : α) (f : α → Except DomainError β) :
    (Except.ok a >>= f) = f a := rfl

/-- Bind of an error in the `DomainError` monad, as a rewrite. -/
@[simp] theorem errorBind {α β : Type} (e : DomainError)
    (f : α → Except DomainError β) :
    ((Except.error e : Except DomainError α) >>= f) = Except.error e := rfl

/-- A bind succeeds exactly when it factors through a successful
intermediate value. -/
theorem bindOkIff {α β : Type} (m : Except DomainError α)
    (f : α → Except DomainError β) (r : β) :
    (m >>= f) = Except.ok r ↔ ∃ a, m = Except.ok a ∧ f a = Except.ok r := by
  cases m with
  | ok a => simp
  | error e => simp

theorem normalize_angle_zero : normalize_angle 0 = 0 := by
  rw [normalize_angle, reduceDown_of_le (by norm_num), reduceUp_of_ge (by norm_num)]

theorem normalize_angle_358 : normalize_angle 358 = -2 := by
  rw [normalize_angle, reduceDown_of_gt (by norm_num), reduceDown_of_le (by norm_num),
    reduceUp_of_ge (by norm_num)]
  norm_num
theorem abs_normalize_centered (d : ℚ) :
    |normalize_angle d| = |centeredMod d| := by
  rcases normalize_angle_agree d with h | ⟨h1, h2, _⟩
  · rw [h]
  · rw [h1, h2]
    norm_num

/-- C3: a record lacking `position` or `viewangles` on either side is never
similar to anything, itself included; `is_similar_lineup` returns `False`
without error. -/
theorem missing_field_never_similar (max_pos max_angle : ℚ) (l1 l2 : Lineup)
    (h : l1.position = none ∨ l2.position = none ∨
      l1.viewangles = none ∨ l2.viewangles = none) :
    is_similar_lineup max_pos max_angle l1 l2 = Except.ok false := by
  cases hp1 : l1.position with
  | none => simp [is_similar_lineup, hp1]
  | some p1 =>
    cases hp2 : l2.position with
    | none => simp [is_similar_lineup, hp1, hp2]
    | some p2 =>
      cases hv1 : l1.viewangles with
      | none => simp [is_similar_lineup, hp1, hp2, hv1]
      | some v1 =>
        cases hv2 : l2.viewangles with
        | none => simp [is_similar_lineup, hp1, hp2, hv1, hv2]
        | some v2 =>
          rcases h with h | h | h | h <;>
            first
            | exact absurd (hp1 ▸ h) (by simp)
            | exact absurd (hp2 ▸ h) (by simp)
            | exact absurd (hv1 ▸ h) (by simp)
            | exact absurd (hv2 ▸ h) (by simp)

/-- Witness for C3 at a concrete record with no fields, compared to
itself. -/
theorem missing_field_never_similar_witness :
    is_similar_lineup 1 1 ⟨none, none, 0⟩ ⟨none, none, 0⟩ =
      Except.ok false :=
  missing_field_never_similar 1 1 ⟨none, none, 0⟩ ⟨none, none, 0⟩
    (Or.inl rfl)

/-- C1: on records carrying a 3-component position and a 2-component
orientation, `is_similar_lineup` returns true exactly when the Euclidean
position distance is at most `max_pos` and the composite angular distance
is at most `max_angle`, both comparisons inclusive. -/
theorem is_similar_decision_iff (x1 y1 z1 x2 y2 z2 pa ya pb yb : ℚ)
    (pl1 pl2 : ℕ) (max_pos max_angle : ℚ)
    (hp : 0 ≤ max_pos) (ha : 0 ≤ max_angle) :
    is_similar_lineup max_pos max_angle (mkLineup [x1, y1, z1] [pa, ya] pl1)
        (mkLineup [x2, y2, z2] [pb, yb] pl2) = Except.ok true ↔
      specPositionDistance x1 y1 z1 x2 y2 z2 ≤ (max_pos : ℝ) ∧
        specAngularDistance pa ya pb yb ≤ (max_angle : ℝ) := by
  have e1 : ((((x1 - x2) ^ 2 + ((y1 - y2) ^ 2 + ((z1 - z2) ^ 2 + 0)) : ℚ)) : ℝ) =
      ((x1 - x2 : ℚ) : ℝ) ^ 2 + ((y1 - y2 : ℚ) : ℝ) ^ 2 +
        ((z1 - z2 : ℚ) : ℝ) ^ 2 := by
    push_cast
    ring
  simp [is_similar_lineup, mkLineup, numList, calculate_distance, sumSqDiff,
    vsub, calculate_angle_difference, getIdx, specPositionDistance,
    specAngularDistance, abs_normalize_centered, e1]
  ring_nf
  exact fun _ => trivial

theorem normalize_angle_of_mem {d : ℚ} (h1 : -180 ≤ d) (h2 : d ≤ 180) :
    normalize_angle d = d := by
  rw [normalize_angle, reduceDown_of_le h2, reduceUp_of_ge h1]

theorem centeredMod_of_mem {d : ℚ} (h1 : -180 < d) (h2 : d ≤ 180) :
    centeredMod d = d := by
  obtain ⟨k, hk⟩ := centeredMod_mod d
  have hb1 := centeredMod_gt d
  have hb2 := centeredMod_le d
  have l1 : ((k : ℚ)) < 1 := by nlinarith
  have l2 : (-1 : ℚ) < (k : ℚ) := by nlinarith
  have k1 : k < 1 := by exact_mod_cast l1
  have k2 : (-1 : ℤ) < k := by exact_mod_cast l2
  have : k = 0 := by omega
  rw [hk, this]
  norm_num

/-- Witness for C1 at two identical positions and orientations with both
thresholds zero. -/
theorem is_similar_decision_iff_witness :
    (0 : ℚ) ≤ 0 ∧
      is_similar_lineup 0 0 (mkLineup [0, 0, 0] [0, 0] 0)
        (mkLineup [0, 0, 0] [0, 0] 1) = Except.ok true := by
  refine ⟨le_refl 0,
    (is_similar_decision_iff 0 0 0 0 0 0 0 0 0 0 0 1 0 0 le_rfl le_rfl).mpr
      ⟨?_, ?_⟩⟩
  · rw [specPositionDistance]
    norm_num
  · rw [specAngularDistance, show centeredMod (0 - 0) = 0 by
      rw [show (0 - 0 : ℚ) = 0 by norm_num, centeredMod_of_mem (by norm_num) (by norm_num)]]
    norm_num

/-- C7: enlarging both thresholds preserves similarity. -/
theorem is_similar_monotone (max_pos max_angle max_pos2 max_angle2 : ℚ)
    (l1 l2 : Lineup) (hp : max_pos ≤ max_pos2) (ha : max_angle ≤ max_angle2)
    (h : is_similar_lineup max_pos max_angle l1 l2 = Except.ok true) :
    is_similar_lineup max_pos2 max_angle2 l1 l2 = Except.ok true := by
  cases hp1 : l1.position with
  | none => rw [is_similar_lineup] at h; simp [hp1] at h
  | some p1 =>
    cases hp2 : l2.position with
    | none => rw [is_similar_lineup] at h; simp [hp1, hp2] at h
    | some p2 =>
      cases hv1 : l1.viewangles with
      | none => rw [is_similar_lineup] at h; simp [hp1, hp2, hv1] at h
      | some v1 =>
        cases hv2 : l2.viewangles with
        | none => rw [is_similar_lineup] at h; simp [hp1, hp2, hv1, hv2] at h
        | some v2 =>
          rw [is_similar_lineup] at h ⊢
          simp only [hp1, hp2, hv1, hv2] at h ⊢
          rcases (bindOkIff _ _ _).mp h with ⟨d, hd, h2⟩
          rcases (bindOkIff _ _ _).mp h2 with ⟨adiff, had, h3⟩
          simp only [Except.ok.injEq, decide_eq_true_eq] at h3
          rw [hd, okBind, had, okBind]
          simp only [Except.ok.injEq, decide_eq_true_eq]
          exact ⟨le_trans h3.1 (by exact_mod_cast hp),
            le_trans h3.2 (by exact_mod_cast ha)⟩

/-- Witness for C7: similarity at thresholds 1, 1 persists at 2, 3. -/
theorem is_similar_monotone_witness :
    is_similar_lineup 2 3 (mkLineup [0, 0, 0] [0, 0] 0)
      (mkLineup [0, 0, 0] [0, 0] 1) = Except.ok true := by
  refine is_similar_monotone 1 1 2 3 _ _ (by norm_num) (by norm_num) ?_
  simp [is_similar_lineup, mkLineup, numList, calculate_distance, sumSqDiff,
    vsub, calculate_angle_difference, getIdx, normalize_angle_zero]
  norm_num

theorem vsub_swap (a b : Val) :
    (∃ q, vsub a b = Except.ok q ∧ vsub b a = Except.ok (-q)) ∨
      (vsub a b = Except.error DomainError.typeMismatch ∧
        vsub b a = Except.error DomainError.typeMismatch) := by
  cases a with
  | num qa =>
    cases b with
    | num qb => exact Or.inl ⟨qa - qb, rfl, by rw [vsub]; norm_num⟩
    | nonnum t => exact Or.inr ⟨rfl, rfl⟩
  | nonnum t =>
    cases b with
    | num qb => exact Or.inr ⟨rfl, rfl⟩
    | nonnum t2 => exact Or.inr ⟨rfl, rfl⟩

theorem getIdx_error {l : List Val} {i : ℕ} {e : DomainError}
    (h : getIdx l i = Except.error e) : e = DomainError.indexOutOfRange := by
  rw [getIdx] at h
  cases hg : l.get? i with
  | none =>
    rw [hg] at h
    simp at h
    exact h.symm
  | some v =>
    rw [hg] at h
    simp at h

theorem sumSqDiff_swap (p1 p2 : List Val) :
    sumSqDiff (List.zip p1 p2) = sumSqDiff (List.zip p2 p1) := by
  induction p1 generalizing p2 with
  | nil => cases p2 <;> rfl
  | cons a t ih =>
    cases p2 with
    | nil => rfl
    | cons b t2 =>
      rw [List.zip_cons_cons, List.zip_cons_cons, sumSqDiff, sumSqDiff]
      rcases vsub_swap a b with ⟨q, hq1, hq2⟩ | ⟨hq1, hq2⟩
      · rw [hq1, hq2, okBind, okBind, ih t2]
        cases hs : sumSqDiff (List.zip t2 t) with
        | error e => rfl
        | ok s =>
          rw [okBind, okBind]
          norm_num
      · rw [hq1, hq2]
        rfl

theorem calculate_distance_swap (p1 p2 : List Val) :
    calculate_distance p1 p2 = calculate_distance p2 p1 := by
  rw [calculate_distance, calculate_distance, sumSqDiff_swap]

theorem calculate_angle_difference_swap (a1 a2 : List Val) :
    calculate_angle_difference a1 a2 = calculate_angle_difference a2 a1 := by
  rw [calculate_angle_difference, calculate_angle_difference]
  cases h1 : getIdx a1 0 with
  | error e =>
    obtain rfl := getIdx_error h1
    cases h2 : getIdx a2 0 with
    | error e2 =>
      obtain rfl := getIdx_error h2
      rfl
    | ok v2 => rfl
  | ok v1 =>
    cases h2 : getIdx a2 0 with
    | error e2 => rfl
    | ok v2 =>
      simp only [okBind]
      rcases vsub_swap v1 v2 with ⟨q, hq1, hq2⟩ | ⟨hq1, hq2⟩
      · rw [hq1, hq2]
        simp only [okBind]
        cases h3 : getIdx a1 1 with
        | error e =>
          obtain rfl := getIdx_error h3
          cases h4 : getIdx a2 1 with
          | error e2 =>
            obtain rfl := getIdx_error h4
            rfl
          | ok w2 => rfl
        | ok w1 =>
          cases h4 : getIdx a2 1 with
          | error e2 => rfl
          | ok w2 =>
            simp only [okBind]
            rcases vsub_swap w1 w2 with ⟨r, hr1, hr2⟩ | ⟨hr1, hr2⟩
            · rw [hr1, hr2]
              simp only [okBind]
              rw [abs_normalize_neg q, abs_normalize_neg r]
            · rw [hr1, hr2]
              rfl
      · rw [hq1, hq2]
        rfl

theorem is_similar_swap (max_pos max_angle : ℚ) (l1 l2 : Lineup) :
    is_similar_lineup max_pos max_angle l1 l2 =
      is_similar_lineup max_pos max_angle l2 l1 := by
  cases hp1 : l1.position with
  | none =>
    cases hp2 : l2.position with
    | none => simp [is_similar_lineup, hp1, hp2]
    | some p2 => simp [is_similar_lineup, hp1, hp2]
  | some p1 =>
    cases hp2 : l2.position with
    | none => simp [is_similar_lineup, hp1, hp2]
    | some p2 =>
      cases hv1 : l1.viewangles with
      | none =>
        cases hv2 : l2.viewangles with
        | none => simp [is_similar_lineup, hp1, hp2, hv1, hv2]
        | some v2 => simp [is_similar_lineup, hp1, hp2, hv1, hv2]
      | some v1 =>
        cases hv2 : l2.viewangles with
        | none => simp [is_similar_lineup, hp1, hp2, hv1, hv2]
        | some v2 =>
          simp only [is_similar_lineup, hp1, hp2, hv1, hv2]
          rw [calculate_distance_swap, calculate_angle_difference_swap]

/-- C8: similarity is symmetric in the two records, errors included. -/
theorem is_similar_symmetric (max_pos max_angle : ℚ) (t1 t2 : Lineup) :
    is_similar_lineup max_pos max_angle t1 t2 =
      is_similar_lineup max_pos max_angle t2 t1 :=
  is_similar_swap max_pos max_angle t1 t2

/-- Counterexample for C4: at a raw difference of exactly -180 the loop
returns -180, which lies outside (-180, 180] and differs from the single
centered modulo-360 reduction, which returns 180. -/
theorem normalize_boundary_counterexample :
    normalize_angle (-180) = -180 ∧ centeredMod (-180) = 180 ∧
      normalize_angle (-180) ≠ centeredMod (-180) := by
  have h1 : normalize_angle (-180) = -180 :=
    normalize_angle_of_mem (by norm_num) (by norm_num)
  have h2 : centeredMod (-180) = 180 := by
    rw [centeredMod]
    rw [show ((-180 : ℚ) - 180) / 360 = ((-1 : ℤ) : ℚ) by norm_num,
      Int.ceil_intCast]
    norm_num
  refine ⟨h1, h2, ?_⟩
  rw [h1, h2]
  norm_num

/-- C4 (amended): the loop normalizes into [-180, 180]; it agrees with the
single centered modulo-360 reduction except on inputs congruent to 180
modulo 360 that are at most -180, where it returns -180 instead of 180; the
absolute values always agree; and both concrete wraparound scenarios hold
as stated. -/
theorem normalize_angle_amended :
    (∀ d : ℚ, (-180 ≤ normalize_angle d ∧ normalize_angle d ≤ 180) ∧
      |normalize_angle d| = |centeredMod d| ∧
      (normalize_angle d = centeredMod d ∨
        (d ≤ -180 ∧ normalize_angle d = -180 ∧ centeredMod d = 180))) ∧
    is_similar_lineup 10 5 (mkLineup [0, 0, 0] [0, 179] 0)
        (mkLineup [0, 0, 0] [0, -179] 1) = Except.ok true ∧
    is_similar_lineup 10 5 (mkLineup [0, 0, 0] [179, 179] 0)
        (mkLineup [0, 0, 0] [170, 170] 1) = Except.ok false := by
  refine ⟨?_, ?_, ?_⟩
  · intro d
    refine ⟨⟨normalize_angle_ge d, normalize_angle_le d⟩,
      abs_normalize_centered d, ?_⟩
    rcases normalize_angle_agree d with h | ⟨h1, h2, h3⟩
    · exact Or.inl h
    · exact Or.inr ⟨h3, h1, h2⟩
  · simp [is_similar_lineup, mkLineup, numList, calculate_distance, sumSqDiff,
      vsub, calculate_angle_difference, getIdx, normalize_angle_zero]
    norm_num [normalize_angle_358, Real.sqrt_le_iff]
  · simp [is_similar_lineup, mkLineup, numList, calculate_distance, sumSqDiff,
      vsub, calculate_angle_difference, getIdx]
    norm_num [normalize_angle_of_mem, Real.sqrt_le_iff, Real.lt_sqrt]

/-- C10: the angle-normalization loop is total on rational angles: it is a
well-defined function (both inner loops terminate, as established by the
well-founded definitions of `reduceDown` and `reduceUp`), and its result
lies in [-180, 180] while differing from the input by a whole multiple of
360. -/
theorem normalize_angle_total_spec (d : ℚ) :
    -180 ≤ normalize_angle d ∧ normalize_angle d ≤ 180 ∧
      ∃ k : ℤ, normalize_angle d = d - 360 * k :=
  ⟨normalize_angle_ge d, normalize_angle_le d, normalize_angle_mod d⟩

theorem simBA_big : is_similar_lineup 10 5 lineupB lineupA = Except.ok true := by
  simp [is_similar_lineup, lineupA, lineupB, mkLineup, numList,
    calculate_distance, sumSqDiff, vsub, calculate_angle_difference, getIdx,
    normalize_angle_zero]
  norm_num [Real.sqrt_le_iff]

theorem simBA_small :
    is_similar_lineup (2⁻¹ : ℚ) 5 lineupB lineupA = Except.ok false := by
  simp [is_similar_lineup, lineupA, lineupB, mkLineup, numList,
    calculate_distance, sumSqDiff, vsub, calculate_angle_difference, getIdx,
    normalize_angle_zero]
  norm_num [Real.sqrt_le_iff, Real.lt_sqrt]

/-- C2: candidates are checked against the accumulating result, so the
second candidate is deduplicated against the first one accepted in the same
call when the threshold allows (result length 1 at `max_pos = 10`), and
kept when it does not (result length 2 at `max_pos = 0.5`). -/
theorem merge_concrete_scenarios :
    merge_lineups 10 5 [] [lineupA, lineupB] = Except.ok [lineupA] ∧
      merge_lineups (1 / 2) 5 [] [lineupA, lineupB] =
        Except.ok [lineupA, lineupB] := by
  constructor
  · simp [merge_lineups, mergeLoop, checkDuplicate, simBA_big]
  · simp [merge_lineups, mergeLoop, checkDuplicate, simBA_small]

/-- Counterexample for C9: a position arity mismatch (2 components against
3) raises nothing — `zip` truncates and a boolean is returned. -/
theorem arity_mismatch_returns_bool :
    is_similar_lineup 1 1 (mkLineup [0, 0] [0, 0] 0)
      (mkLineup [0, 0, 0] [0, 0] 1) = Except.ok true := by
  simp [is_similar_lineup, mkLineup, numList, calculate_distance, sumSqDiff,
    vsub, calculate_angle_difference, getIdx, normalize_angle_zero]
  norm_num [Real.sqrt_le_iff]

theorem sumSqDiff_numList (l1 l2 : List ℚ) :
    ∃ s : ℚ, sumSqDiff (List.zip (numList l1) (numList l2)) = Except.ok s := by
  induction l1 generalizing l2 with
  | nil => exact ⟨0, rfl⟩
  | cons q t ih =>
    cases l2 with
    | nil => exact ⟨0, rfl⟩
    | cons r t2 =>
      obtain ⟨s, hs⟩ := ih t2
      refine ⟨(q - r) ^ 2 + s, ?_⟩
      simp only [numList, List.zip, List.map_cons, List.zipWith_cons_cons,
        sumSqDiff] at hs ⊢
      rw [show vsub (Val.num q) (Val.num r) = Except.ok (q - r) from rfl,
        okBind, hs, okBind]

/-- C9 (amended): a non-numeric entry in the first compared position slot
of either record propagates a type error; on all-numeric records,
`viewangles` with fewer than two components — on either record, length 0
or 1 — propagate an index error; but a position arity mismatch alone never
raises — `zip` truncates — and numeric records whose `viewangles` have at
least two components always produce a boolean. -/
theorem malformed_value_errors :
    (∀ (max_pos max_angle : ℚ) (t : ℕ) (r1 r2 va1 va2 : List Val)
        (y : Val) (pl1 pl2 : ℕ),
      is_similar_lineup max_pos max_angle
          ⟨some (Val.nonnum t :: r1), some va1, pl1⟩
          ⟨some (y :: r2), some va2, pl2⟩ =
        Except.error DomainError.typeMismatch) ∧
    (∀ (max_pos max_angle : ℚ) (t : ℕ) (r1 r2 va1 va2 : List Val)
        (y : Val) (pl1 pl2 : ℕ),
      is_similar_lineup max_pos max_angle
          ⟨some (y :: r1), some va1, pl1⟩
          ⟨some (Val.nonnum t :: r2), some va2, pl2⟩ =
        Except.error DomainError.typeMismatch) ∧
    (∀ (max_pos max_angle : ℚ) (ps1 ps2 as1 as2 : List ℚ) (pl1 pl2 : ℕ),
      as1.length < 2 ∨ as2.length < 2 →
      is_similar_lineup max_pos max_angle (mkLineup ps1 as1 pl1)
          (mkLineup ps2 as2 pl2) =
        Except.error DomainError.indexOutOfRange) ∧
    (∀ (max_pos max_angle : ℚ) (p1s p2s a1s a2s : List ℚ) (pl1 pl2 : ℕ),
      2 ≤ a1s.length → 2 ≤ a2s.length →
      ∃ b, is_similar_lineup max_pos max_angle (mkLineup p1s a1s pl1)
        (mkLineup p2s a2s pl2) = Except.ok b) := by
  refine ⟨?_, ?_, ?_, ?_⟩
  · intro mp ma t r1 r2 va1 va2 y pl1 pl2
    cases y <;>
      simp [is_similar_lineup, calculate_distance, sumSqDiff, vsub]
  · intro mp ma t r1 r2 va1 va2 y pl1 pl2
    cases y <;>
      simp [is_similar_lineup, calculate_distance, sumSqDiff, vsub]
  · intro mp ma ps1 ps2 as1 as2 pl1 pl2 hlen
    obtain ⟨s, hs⟩ := sumSqDiff_numList ps1 ps2
    simp only [is_similar_lineup, mkLineup, calculate_distance]
    rw [hs, okBind]
    cases as1 with
    | nil => simp [calculate_angle_difference, numList, getIdx]
    | cons q0 t1 =>
      cases as2 with
      | nil => simp [calculate_angle_difference, numList, getIdx, vsub]
      | cons r0 t2 =>
        cases t1 with
        | nil => simp [calculate_angle_difference, numList, getIdx, vsub]
        | cons q1 t1b =>
          cases t2 with
          | nil => simp [calculate_angle_difference, numList, getIdx, vsub]
          | cons r1 t2b =>
            exfalso
            rcases hlen with h | h <;> simp [List.length_cons] at h <;> omega
  · intro mp ma p1s p2s a1s a2s pl1 pl2 h1 h2
    obtain ⟨q0, q1, t1, rfl⟩ : ∃ q0 q1 t1, a1s = q0 :: q1 :: t1 := by
      cases a1s with
      | nil => norm_num at h1
      | cons x xs =>
        cases xs with
        | nil => norm_num at h1
        | cons y ys => exact ⟨x, y, ys, rfl⟩
    obtain ⟨r0, r1, t2, rfl⟩ : ∃ r0 r1 t2, a2s = r0 :: r1 :: t2 := by
      cases a2s with
      | nil => norm_num at h2
      | cons x xs =>
        cases xs with
        | nil => norm_num at h2
        | cons y ys => exact ⟨x, y, ys, rfl⟩
    obtain ⟨s, hs⟩ := sumSqDiff_numList p1s p2s
    exact ⟨_, by
      simp only [is_similar_lineup, mkLineup, calculate_distance]
      rw [hs, okBind]
      simp [calculate_angle_difference, numList, getIdx, vsub]
      rfl⟩

/-- Witness for C9 (amended): the third conjunct at a concrete record with
a single viewangle component, and the fourth at concrete records with a
position arity mismatch. -/
theorem malformed_value_errors_witness :
    is_similar_lineup 1 1 (mkLineup [0, 0, 0] [0] 0)
        (mkLineup [0, 0, 0] [0, 0] 1) =
      Except.error DomainError.indexOutOfRange ∧
    ∃ b, is_similar_lineup 1 1 (mkLineup [0, 0] [0, 0] 0)
      (mkLineup [0, 0, 0] [0, 0] 1) = Except.ok b :=
  ⟨malformed_value_errors.2.2.1 1 1 [0, 0, 0] [0, 0, 0] [0] [0, 0] 0 1
      (Or.inl (by norm_num)),
    malformed_value_errors.2.2.2 1 1 [0, 0] [0, 0, 0] [0, 0] [0, 0] 0 1
      (by norm_num) (by norm_num)⟩

theorem mergeLoopStructure (max_pos max_angle : ℚ) :
    ∀ (C res R : List Lineup),
      mergeLoop max_pos max_angle res C = Except.ok R →
      ∃ acc, R = res ++ acc ∧ acc.Sublist C := by
  intro C
  induction C with
  | nil =>
    intro res R h
    simp only [mergeLoop, Except.ok.injEq] at h
    exact ⟨[], by simp [h], List.nil_sublist _⟩
  | cons c cs ih =>
    intro res R h
    simp only [mergeLoop] at h
    rcases (bindOkIff _ _ _).mp h with ⟨b, hb, h2⟩
    cases b with
    | true =>
      simp only [if_pos] at h2
      rcases ih res R h2 with ⟨acc, ha1, ha2⟩
      exact ⟨acc, ha1, ha2.cons c⟩
    | false =>
      simp only [Bool.false_eq_true, if_neg, not_false_eq_true] at h2
      rcases ih (res ++ [c]) R h2 with ⟨acc, ha1, ha2⟩
      refine ⟨c :: acc, ?_, ha2.cons₂ c⟩
      rw [ha1]
      simp

/-- C6: `merge_lineups` is a pure function of its arguments (the embedding
is value-based, so `existing_lineups` is never mutated), and a successful
result is the existing records in their original order followed by a
subsequence of the candidate batch in its original relative order. -/
theorem merge_preserves_order (max_pos max_angle : ℚ)
    (E C R : List Lineup) (h : merge_lineups max_pos max_angle E C = Except.ok R) :
    ∃ acc, R = E ++ acc ∧ acc.Sublist C :=
  mergeLoopStructure max_pos max_angle C E R h

/-- Witness for C6 at empty existing and candidate lists. -/
theorem merge_preserves_order_witness :
    ∃ acc, ([] : List Lineup) = [] ++ acc ∧
      acc.Sublist ([] : List Lineup) :=
  merge_preserves_order 0 0 [] [] [] (by simp [merge_lineups, mergeLoop])

theorem sumSqDiff_self (l : List ℚ) :
    sumSqDiff (List.zip (numList l) (numList l)) = Except.ok 0 := by
  induction l with
  | nil => rfl
  | cons q t ih =>
    simp only [numList, List.zip, List.map_cons, List.zipWith_cons_cons,
      sumSqDiff] at ih ⊢
    rw [show vsub (Val.num q) (Val.num q) = Except.ok (q - q) from rfl,
      okBind, ih, okBind]
    norm_num

theorem is_similar_wf_ok (max_pos max_angle : ℚ) {l1 l2 : Lineup}
    (h1 : WellFormed l1) (h2 : WellFormed l2) :
    ∃ b, is_similar_lineup max_pos max_angle l1 l2 = Except.ok b := by
  obtain ⟨ps1, as1, hp1, hv1, hl1⟩ := h1
  obtain ⟨ps2, as2, hp2, hv2, hl2⟩ := h2
  obtain ⟨q0, q1, t1, rfl⟩ : ∃ q0 q1 t1, as1 = q0 :: q1 :: t1 := by
    cases as1 with
    | nil => norm_num at hl1
    | cons x xs =>
      cases xs with
      | nil => norm_num at hl1
      | cons y ys => exact ⟨x, y, ys, rfl⟩
  obtain ⟨r0, r1, t2, rfl⟩ : ∃ r0 r1 t2, as2 = r0 :: r1 :: t2 := by
    cases as2 with
    | nil => norm_num at hl2
    | cons x xs =>
      cases xs with
      | nil => norm_num at hl2
      | cons y ys => exact ⟨x, y, ys, rfl⟩
  obtain ⟨s, hs⟩ := sumSqDiff_numList ps1 ps2
  exact ⟨_, by
    simp only [is_similar_lineup, hp1, hp2, hv1, hv2, calculate_distance]
    rw [hs, okBind]
    simp [calculate_angle_difference, numList, getIdx, vsub]
    rfl⟩

theorem is_similar_self (max_pos max_angle : ℚ) {c : Lineup}
    (hc : WellFormed c) (hp : 0 ≤ max_pos) (ha : 0 ≤ max_angle) :
    is_similar_lineup max_pos max_angle c c = Except.ok true := by
  obtain ⟨ps, as2, hpos, hview, hlen⟩ := hc
  obtain ⟨q0, q1, t1, rfl⟩ : ∃ q0 q1 t1, as2 = q0 :: q1 :: t1 := by
    cases as2 with
    | nil => norm_num at hlen
    | cons x xs =>
      cases xs with
      | nil => norm_num at hlen
      | cons y ys => exact ⟨x, y, ys, rfl⟩
  simp only [is_similar_lineup, hpos, hview, calculate_distance]
  rw [sumSqDiff_self, okBind]
  simp [calculate_angle_difference, numList, getIdx, vsub,
    normalize_angle_zero]
  norm_num [Real.sqrt_zero]
  exact ⟨by exact_mod_cast hp, by exact_mod_cast ha⟩

theorem checkDuplicate_wf_ok (max_pos max_angle : ℚ) {c : Lineup}
    (hc : WellFormed c) :
    ∀ {R : List Lineup}, (∀ x ∈ R, WellFormed x) →
      ∃ b, checkDuplicate max_pos max_angle c R = Except.ok b := by
  intro R
  induction R with
  | nil => exact fun _ => ⟨false, rfl⟩
  | cons x xs ih =>
    intro hR
    obtain ⟨b, hb⟩ := is_similar_wf_ok max_pos max_angle hc
      (hR x (List.mem_cons_self x xs))
    cases b with
    | true => exact ⟨true, by simp [checkDuplicate, hb]⟩
    | false =>
      obtain ⟨b2, hb2⟩ := ih fun y hy => hR y (List.mem_cons_of_mem x hy)
      exact ⟨b2, by simp [checkDuplicate, hb, hb2]⟩

theorem checkDuplicate_mem_true (max_pos max_angle : ℚ) {c : Lineup}
    (hc : WellFormed c) :
    ∀ {R : List Lineup}, (∀ x ∈ R, WellFormed x) →
      (∃ x ∈ R, is_similar_lineup max_pos max_angle c x = Except.ok true) →
      checkDuplicate max_pos max_angle c R = Except.ok true := by
  intro R
  induction R with
  | nil => rintro _ ⟨x, hx, _⟩; cases hx
  | cons x xs ih =>
    rintro hR ⟨y, hy, hsim⟩
    obtain ⟨b, hb⟩ := is_similar_wf_ok max_pos max_angle hc
      (hR x (List.mem_cons_self x xs))
    cases b with
    | true => simp [checkDuplicate, hb]
    | false =>
      rcases List.mem_cons.mp hy with rfl | hy2
      · rw [hb] at hsim
        cases hsim
      · have := ih (fun z hz => hR z (List.mem_cons_of_mem x hz)) ⟨y, hy2, hsim⟩
        simp [checkDuplicate, hb, this]

theorem checkDuplicate_true_mem (max_pos max_angle : ℚ) (c : Lineup) :
    ∀ (R : List Lineup),
      checkDuplicate max_pos max_angle c R = Except.ok true →
      ∃ x ∈ R, is_similar_lineup max_pos max_angle c x = Except.ok true := by
  intro R
  induction R with
  | nil => intro h; cases h
  | cons x xs ih =>
    intro h
    simp only [checkDuplicate] at h
    rcases (bindOkIff _ _ _).mp h with ⟨b, hb, h2⟩
    cases b with
    | true => exact ⟨x, List.mem_cons_self x xs, hb⟩
    | false =>
      simp only [Bool.false_eq_true, if_neg, not_false_eq_true] at h2
      rcases ih h2 with ⟨y, hy, hsim⟩
      exact ⟨y, List.mem_cons_of_mem x hy, hsim⟩

theorem mergeLoop_wf_ok (max_pos max_angle : ℚ)
    (hp : 0 ≤ max_pos) (ha : 0 ≤ max_angle) :
    ∀ (C res : List Lineup), (∀ x ∈ res, WellFormed x) →
      (∀ c ∈ C, WellFormed c) →
      ∃ R, mergeLoop max_pos max_angle res C = Except.ok R ∧
        (∀ x ∈ R, WellFormed x) ∧
        (∀ c ∈ C, ∃ x ∈ R,
          is_similar_lineup max_pos max_angle c x = Except.ok true) ∧
        ∃ t, R = res ++ t := by
  intro C
  induction C with
  | nil =>
    intro res hres _
    exact ⟨res, by simp [mergeLoop], hres, by simp, ⟨[], by simp⟩⟩
  | cons c cs ih =>
    intro res hres hC
    have hcwf : WellFormed c := hC c (List.mem_cons_self c cs)
    have hcs : ∀ c2 ∈ cs, WellFormed c2 :=
      fun c2 h2 => hC c2 (List.mem_cons_of_mem c h2)
    obtain ⟨b, hb⟩ := checkDuplicate_wf_ok max_pos max_angle hcwf hres
    cases b with
    | true =>
      obtain ⟨R, hR, hwf, hsim, t, ht⟩ := ih res hres hcs
      obtain ⟨x, hx, hxs⟩ :=
        checkDuplicate_true_mem max_pos max_angle c res hb
      refine ⟨R, ?_, hwf, ?_, ⟨t, ht⟩⟩
      · simp [mergeLoop, hb, hR]
      · intro c2 h2
        rcases List.mem_cons.mp h2 with rfl | h3
        · exact ⟨x, by rw [ht]; exact List.mem_append_left t hx, hxs⟩
        · exact hsim c2 h3
    | false =>
      have hres2 : ∀ x ∈ res ++ [c], WellFormed x := by
        intro x hx
        rcases List.mem_append.mp hx with h | h
        · exact hres x h
        · rw [List.mem_singleton.mp h]
          exact hcwf
      obtain ⟨R, hR, hwf, hsim, t, ht⟩ := ih (res ++ [c]) hres2 hcs
      refine ⟨R, ?_, hwf, ?_, ⟨c :: t, by rw [ht]; simp⟩⟩
      · simp [mergeLoop, hb, hR]
      · intro c2 h2
        rcases List.mem_cons.mp h2 with rfl | h3
        · refine ⟨c2, ?_, is_similar_self max_pos max_angle hcwf hp ha⟩
          rw [ht]
          exact List.mem_append_left t (List.mem_append_right res
            (List.mem_singleton.mpr rfl))
        · exact hsim c2 h3

theorem mergeLoop_replay (max_pos max_angle : ℚ) :
    ∀ (C R : List Lineup), (∀ x ∈ R, WellFormed x) →
      (∀ c ∈ C, WellFormed c) →
      (∀ c ∈ C, ∃ x ∈ R,
        is_similar_lineup max_pos max_angle c x = Except.ok true) →
      mergeLoop max_pos max_angle R C = Except.ok R := by
  intro C
  induction C with
  | nil => intro R _ _ _; simp [mergeLoop]
  | cons c cs ih =>
    intro R hR hC hsim
    have hdup : checkDuplicate max_pos max_angle c R = Except.ok true :=
      checkDuplicate_mem_true max_pos max_angle
        (hC c (List.mem_cons_self c cs)) hR (hsim c (List.mem_cons_self c cs))
    have hrest := ih R hR
      (fun c2 h2 => hC c2 (List.mem_cons_of_mem c h2))
      (fun c2 h2 => hsim c2 (List.mem_cons_of_mem c h2))
    simp [mergeLoop, hdup, hrest]

/-- Counterexample for C5: replaying a batch containing a record that
lacks both fields appends the record a second time, because a
missing-field record is not similar even to itself. -/
theorem merge_not_idempotent :
    merge_lineups 10 5 [] [noFieldRecord] = Except.ok [noFieldRecord] ∧
      merge_lineups 10 5 [noFieldRecord] [noFieldRecord] =
        Except.ok [noFieldRecord, noFieldRecord] ∧
      ([noFieldRecord, noFieldRecord] : List Lineup) ≠ [noFieldRecord] := by
  refine ⟨?_, ?_, by simp⟩
  · simp [merge_lineups, mergeLoop, checkDuplicate]
  · simp [merge_lineups, mergeLoop, checkDuplicate, is_similar_lineup,
      noFieldRecord]

/-- C5 (amended): merging an empty batch returns the existing sequence
unchanged, for all thresholds and all existing records; and when the
thresholds are non-negative and every record involved carries numeric
`position` and `viewangles` fields (at least two orientation components),
replaying the same batch adds nothing. -/
theorem merge_idempotent_amended :
    (∀ (max_pos max_angle : ℚ) (E : List Lineup),
      merge_lineups max_pos max_angle E [] = Except.ok E) ∧
    (∀ (max_pos max_angle : ℚ) (E C : List Lineup),
      0 ≤ max_pos → 0 ≤ max_angle →
      (∀ l ∈ E, WellFormed l) → (∀ c ∈ C, WellFormed c) →
      ∃ R, merge_lineups max_pos max_angle E C = Except.ok R ∧
        merge_lineups max_pos max_angle R C = Except.ok R) := by
  refine ⟨fun _ _ _ => by simp [merge_lineups, mergeLoop], ?_⟩
  intro max_pos max_angle E C hp ha hE hC
  obtain ⟨R, hR, hwf, hsim, _, _⟩ :=
    mergeLoop_wf_ok max_pos max_angle hp ha C E hE hC
  exact ⟨R, hR, mergeLoop_replay max_pos max_angle C R hwf hC hsim⟩

/-- Witness for C5 (amended): the empty-batch identity on a non-empty,
not-well-formed existing sequence, and replay idempotence with empty
existing records and a single well-formed candidate. -/
theorem merge_idempotent_amended_witness :
    merge_lineups 10 5 [noFieldRecord] [] = Except.ok [noFieldRecord] ∧
      ∃ R, merge_lineups 10 5 [] [lineupA] = Except.ok R ∧
        merge_lineups 10 5 R [lineupA] = Except.ok R :=
  ⟨merge_idempotent_amended.1 10 5 [noFieldRecord],
    merge_idempotent_amended.2 10 5 [] [lineupA] (by norm_num) (by norm_num)
      (by simp)
      (by
        intro c hc
        rw [List.mem_singleton.mp hc]
        exact ⟨[0, 0, 0], [0, 0], rfl, rfl, by norm_num⟩)⟩

